import Mathlib

/-!
Verification of the Dune stats-subgraph sync pipeline (`src/dune/update.py`).

The Python source is shallowly embedded: each dict-shaped record becomes a
structure, the mutable accumulation loops become structural recursions over
explicit state, and the network boundary (Dune query outcome, subgraph pages,
per-batch insert success) is passed in as explicit data.
-/

/-- A move row as accumulated in `DataSyncer.retrieveAllData` (update.py:301).
`raw_timestamp` models the optional presence of the `"raw_timestamp"` key:
retrieval always sets it, `postprocessLimitedData` deletes it from the rows it
keeps, and delivery deletes it if still present. -/
structure Move where
  id : String
  timestamp : String
  txid : String
  name : String
  raw_timestamp : Option Int
deriving DecidableEq

/-- A game-move row (update.py:313). -/
structure GameMove where
  move_id : String
  game : String
deriving DecidableEq

/-- A move row as delivered to Dune, after `raw_timestamp` is stripped
(update.py:417-421). -/
structure DuneMove where
  id : String
  timestamp : String
  txid : String
  name : String
deriving DecidableEq

/-- Dropping the `raw_timestamp` key from a move row (update.py:417-421). -/
def stripRaw (m : Move) : DuneMove :=
  { id := m.id, timestamp := m.timestamp, txid := m.txid, name := m.name }

/-- `move["raw_timestamp"]`, read on rows where retrieval has set it
(the `getD 0` default is never reached on such rows). -/
def rawOf (m : Move) : Int :=
  m.raw_timestamp.getD 0

/-- Python's `max` over a non-empty list (update.py:236); the `[]` case is
unreachable there because the caller returns early on an empty list. -/
def maxFold : List Int → Int
  | [] => 0
  | x :: xs => xs.foldl max x

/-- `DataSyncer.postprocessLimitedData` (update.py:230-261): drop every move
whose `raw_timestamp` equals the maximum one, drop every game move whose
`move_id` is among the dropped moves' ids, and delete the `raw_timestamp`
key from the kept moves. -/
def postprocessLimitedData (moves : List Move) (gameMoves : List GameMove) :
    List Move × List GameMove :=
  match moves with
  | [] => (moves, gameMoves)
  | _ :: _ =>
    let latestTimestamp := maxFold (moves.map rawOf)
    let moveIdsToRemove := (moves.filter fun m => rawOf m = latestTimestamp).map Move.id
    let movesKept := (moves.filter fun m => ¬ rawOf m = latestTimestamp).map
      fun m => { m with raw_timestamp := none }
    let gameMovesKept := gameMoves.filter fun gm => ¬ gm.move_id ∈ moveIdsToRemove
    (movesKept, gameMovesKept)

/-- Loop state of `DataSyncer.createTimestampBatches` (update.py:350-353). -/
structure BatchState where
  batches : List (List Move)
  currentBatch : List Move
  currentBatchSize : Nat
  currentTimestamp : Option String

/-- One iteration of the batching loop (update.py:355-370): close the current
batch exactly when a timestamp is already recorded, the incoming move's
timestamp differs from it, and the running count has reached the configured
batch size; then append the incoming move to the (possibly fresh) batch. -/
def batchStep (batchSize : Nat) (s : BatchState) (move : Move) : BatchState :=
  let s1 :=
    if s.currentTimestamp ≠ none ∧ some move.timestamp ≠ s.currentTimestamp ∧
        batchSize ≤ s.currentBatchSize then
      if s.currentBatch ≠ [] then
        { batches := s.batches ++ [s.currentBatch], currentBatch := [],
          currentBatchSize := 0, currentTimestamp := s.currentTimestamp }
      else s
    else s
  { batches := s1.batches, currentBatch := s1.currentBatch ++ [move],
    currentBatchSize := s1.currentBatchSize + 1,
    currentTimestamp := some move.timestamp }

/-- `DataSyncer.createTimestampBatches` (update.py:345-376). -/
def createTimestampBatches (moves : List Move) (batchSize : Nat) :
    List (List Move) :=
  match moves with
  | [] => []
  | _ :: _ =>
    let s := moves.foldl (batchStep batchSize)
      { batches := [], currentBatch := [], currentBatchSize := 0,
        currentTimestamp := none }
    if s.currentBatch ≠ [] then s.batches ++ [s.currentBatch] else s.batches

/-- Days in a month of the proleptic Gregorian calendar, as Python's
`datetime` validates them. -/
def daysInMonth (y m : Nat) : Nat :=
  if m = 2 then
    if y % 4 = 0 ∧ (y % 100 ≠ 0 ∨ y % 400 = 0) then 29 else 28
  else if m = 4 ∨ m = 6 ∨ m = 9 ∨ m = 11 then 30
  else 31

/-- Days between a proleptic Gregorian civil date and 1970-01-01
(Howard Hinnant's `days_from_civil`, the arithmetic behind
`datetime.timestamp()` for UTC-aware datetimes). -/
def daysFromCivil (y m d : Int) : Int :=
  let y2 := if m ≤ 2 then y - 1 else y
  let era := y2.fdiv 400
  let yoe := y2 - era * 400
  let mp := if 2 < m then m - 3 else m + 9
  let doy := (153 * mp + 2).fdiv 5 + d - 1
  let doe := yoe * 365 + yoe.fdiv 4 - yoe.fdiv 100 + doy
  era * 146097 + doe - 719468

/-- A broken-down UTC datetime, as produced by
`datetime.strptime(..., '%Y-%m-%d %H:%M:%S')` (update.py:131). -/
structure Civil where
  year : Nat
  month : Nat
  day : Nat
  hour : Nat
  minute : Nat
  second : Nat
deriving DecidableEq

/-- `int(dt.replace(tzinfo=timezone.utc).timestamp())` for a whole-second
datetime (update.py:133-134). -/
def timestampOfCivil (c : Civil) : Int :=
  daysFromCivil c.year c.month c.day * 86400 +
    c.hour * 3600 + c.minute * 60 + c.second

/-- Inverse civil-date computation (Howard Hinnant's `civil_from_days`),
the arithmetic behind `datetime.fromtimestamp(ts, tz=timezone.utc)`
(update.py:298). -/
def civilFromDays (z0 : Int) : Int × Int × Int :=
  let z := z0 + 719468
  let era := z.fdiv 146097
  let doe := z - era * 146097
  let yoe := (doe - doe.fdiv 1460 + doe.fdiv 36524 - doe.fdiv 146096).fdiv 365
  let y := yoe + era * 400
  let doy := doe - (365 * yoe + yoe.fdiv 4 - yoe.fdiv 100)
  let mp := (5 * doy + 2).fdiv 153
  let d := doy - (153 * mp + 2).fdiv 5 + 1
  let m := if mp < 10 then mp + 3 else mp - 9
  (if m ≤ 2 then y + 1 else y, m, d)

/-- Two zero-padded decimal digits. -/
def pad2 (n : Nat) : List Char :=
  [Nat.digitChar (n / 10), Nat.digitChar (n % 10)]

/-- Three zero-padded decimal digits. -/
def pad3 (n : Nat) : List Char :=
  [Nat.digitChar (n / 100), Nat.digitChar (n / 10 % 10), Nat.digitChar (n % 10)]

/-- Four zero-padded decimal digits. -/
def pad4 (n : Nat) : List Char :=
  [Nat.digitChar (n / 1000), Nat.digitChar (n / 100 % 10),
   Nat.digitChar (n / 10 % 10), Nat.digitChar (n % 10)]

/-- `datetime.fromtimestamp(timestamp, tz=timezone.utc).isoformat()` for an
integer number of epoch seconds (update.py:298-303): the ISO-8601 string
`YYYY-MM-DDTHH:MM:SS+00:00` (microseconds are zero, hence omitted). -/
def isoOfEpoch (ts : Int) : String :=
  let days := ts.fdiv 86400
  let sod := (ts - days * 86400).toNat
  let ymd := civilFromDays days
  ⟨pad4 ymd.1.toNat ++ '-' :: pad2 ymd.2.1.toNat ++ '-' :: pad2 ymd.2.2.toNat ++
    'T' :: (pad2 (sod / 3600) ++ ':' :: pad2 (sod / 60 % 60) ++
    ':' :: pad2 (sod % 60) ++ '+' :: '0' :: '0' :: ':' :: '0' :: ['0'])⟩

/-- One move record as returned by the subgraph query
(update.py:162-184): identifier, integer timestamp (`int(move["timestamp"])`),
transaction id, nested display name, and nested game labels. -/
structure URecord where
  id : String
  timestamp : Int
  txid : String
  name : String
  games : List String
deriving DecidableEq

/-- The move row built from one subgraph record (update.py:301-307). -/
def mkMove (r : URecord) : Move :=
  { id := r.id, timestamp := isoOfEpoch r.timestamp, txid := r.txid,
    name := r.name, raw_timestamp := some r.timestamp }

/-- The game-move rows built from one subgraph record (update.py:312-318). -/
def mkGameMoves (r : URecord) : List GameMove :=
  r.games.map fun g => { move_id := r.id, game := g }

/-- Accumulation state of `DataSyncer.retrieveAllData`
(update.py:222-224 and 272-275). -/
structure RetState where
  moves : List Move
  gameMoves : List GameMove
  totalMoves : Nat
  reachedLimit : Bool
deriving DecidableEq

/-- The per-record loop inside one page (update.py:289-318): each record is
rejected — and the run marked limited — once `totalMoves` has reached
`maxMoves`; otherwise its move row and game-move rows are appended. -/
def processPage (maxMoves : Nat) : RetState → List URecord → RetState
  | s, [] => s
  | s, r :: rs =>
    if maxMoves ≤ s.totalMoves then
      { s with reachedLimit := true }
    else
      processPage maxMoves
        { moves := s.moves ++ [mkMove r],
          gameMoves := s.gameMoves ++ mkGameMoves r,
          totalMoves := s.totalMoves + 1,
          reachedLimit := s.reachedLimit } rs

/-- The pagination loop of `DataSyncer.retrieveAllData` (update.py:277-331),
driven by the successive pages the subgraph returns: stop on an empty page,
after a limited page, or after a page shorter than the requested batch size. -/
def retrieveLoop (maxMoves bs : Nat) : RetState → List (List URecord) → RetState
  | s, [] => s
  | s, page :: rest =>
    if page = [] then s
    else
      let s2 := processPage maxMoves s page
      if s2.reachedLimit then s2
      else if page.length < bs then s2
      else retrieveLoop maxMoves bs s2 rest

/-- The syncer's initial accumulation state (update.py:222-224, 272-275). -/
def initRetState : RetState :=
  { moves := [], gameMoves := [], totalMoves := 0, reachedLimit := false }

/-- `DataSyncer.retrieveAllData` (update.py:263-343): run the pagination loop
and, only when the run was limited, apply `postprocessLimitedData`. -/
def retrieveAllData (maxMoves bs : Nat) (pages : List (List URecord)) : RetState :=
  let s := retrieveLoop maxMoves bs initRetState pages
  if s.reachedLimit then
    let pp := postprocessLimitedData s.moves s.gameMoves
    { s with moves := pp.1, gameMoves := pp.2 }
  else s

/-- ASCII whitespace as matched by the `\s` class of the regular expression
in update.py:130 (the non-ASCII whitespace Python additionally accepts never
occurs in the fixed warehouse format). -/
def isPyWs (c : Char) : Bool :=
  c.toNat == 32 || c.toNat == 9 || c.toNat == 10 ||
    c.toNat == 11 || c.toNat == 12 || c.toNat == 13

/-- An ASCII decimal digit (`\d` on the warehouse's ASCII timestamps). -/
def isDig (c : Char) : Prop :=
  48 ≤ c.toNat ∧ c.toNat ≤ 57

instance (c : Char) : Decidable (isDig c) := by
  unfold isDig; infer_instance

/-- Decimal value of a digit character. -/
def dv (c : Char) : Nat :=
  c.toNat - 48

/-- Matching the anchored pattern of `re.sub(r'\.\d{3}\s+UTC$', '', ...)`
(update.py:130) against the reversed character list: `C`, `T`, `U`, one or
more whitespace characters, three digits (reversed), then the dot; returns
the reversed remainder when the suffix matches. -/
def stripMsUtcRev : List Char → Option (List Char)
  | c1 :: c2 :: c3 :: rest =>
    if c1 = 'C' ∧ c2 = 'T' ∧ c3 = 'U' then
      if rest.takeWhile isPyWs = [] then none
      else
        match rest.dropWhile isPyWs with
        | d3 :: d2 :: d1 :: dot :: r3 =>
          if dot = '.' ∧ isDig d1 ∧ isDig d2 ∧ isDig d3 then some r3 else none
        | _ => none
    else none
  | _ => none

/-- `re.sub(r'\.\d{3}\s+UTC$', '', latestTime)` (update.py:130): remove the
millisecond fraction together with the trailing zone marker when — and only
when — that exact suffix is present. -/
def stripMsUtc (s : String) : String :=
  match stripMsUtcRev s.data.reverse with
  | some r => ⟨r.reverse⟩
  | none => s

/-- A literal character of the strptime format string. -/
def pLit (c : Char) : List Char → List (List Char)
  | [] => []
  | a :: r => if a = c then [r] else []

/-- Whitespace in the strptime format string matches `\s+`; the following
format directive always requires a digit, so only the maximal whitespace run
can lead to a successful parse and greedy matching is exact. -/
def pWs : List Char → List (List Char)
  | [] => []
  | a :: r => if isPyWs a then [(a :: r).dropWhile isPyWs] else []

/-- strptime `%Y`: exactly four decimal digits. -/
def pY : List Char → List (Nat × List Char)
  | a :: b :: c :: d :: r =>
    if isDig a ∧ isDig b ∧ isDig c ∧ isDig d then
      [(1000 * dv a + 100 * dv b + 10 * dv c + dv d, r)]
    else []
  | _ => []

/-- strptime `%m`, the regex `1[0-2]|0[1-9]|[1-9]` with all alternatives
kept for backtracking. -/
def pm (cs : List Char) : List (Nat × List Char) :=
  (match cs with
   | a :: b :: r =>
     (if isDig a ∧ isDig b ∧ dv a = 1 ∧ dv b ≤ 2 then [(10 + dv b, r)] else []) ++
     (if isDig a ∧ isDig b ∧ dv a = 0 ∧ 1 ≤ dv b then [(dv b, r)] else [])
   | _ => []) ++
  (match cs with
   | a :: r => if isDig a ∧ 1 ≤ dv a then [(dv a, r)] else []
   | [] => [])

/-- strptime `%d`, the regex `3[01]|[12]\d|0[1-9]|[1-9]`. -/
def pd (cs : List Char) : List (Nat × List Char) :=
  (match cs with
   | a :: b :: r =>
     (if isDig a ∧ isDig b ∧ dv a = 3 ∧ dv b ≤ 1 then [(30 + dv b, r)] else []) ++
     (if isDig a ∧ isDig b ∧ (dv a = 1 ∨ dv a = 2) then [(10 * dv a + dv b, r)] else []) ++
     (if isDig a ∧ isDig b ∧ dv a = 0 ∧ 1 ≤ dv b then [(dv b, r)] else [])
   | _ => []) ++
  (match cs with
   | a :: r => if isDig a ∧ 1 ≤ dv a then [(dv a, r)] else []
   | [] => [])

/-- strptime `%H`, the regex `2[0-3]|[0-1]\d|\d`. -/
def ph (cs : List Char) : List (Nat × List Char) :=
  (match cs with
   | a :: b :: r =>
     (if isDig a ∧ isDig b ∧ dv a = 2 ∧ dv b ≤ 3 then [(20 + dv b, r)] else []) ++
     (if isDig a ∧ isDig b ∧ dv a ≤ 1 then [(10 * dv a + dv b, r)] else [])
   | _ => []) ++
  (match cs with
   | a :: r => if isDig a then [(dv a, r)] else []
   | [] => [])

/-- strptime `%M`, the regex `[0-5]\d|\d`. -/
def pmin (cs : List Char) : List (Nat × List Char) :=
  (match cs with
   | a :: b :: r =>
     if isDig a ∧ isDig b ∧ dv a ≤ 5 then [(10 * dv a + dv b, r)] else []
   | _ => []) ++
  (match cs with
   | a :: r => if isDig a then [(dv a, r)] else []
   | [] => [])

/-- strptime `%S`, the regex `6[0-1]|[0-5]\d|\d`. -/
def ps (cs : List Char) : List (Nat × List Char) :=
  (match cs with
   | a :: b :: r =>
     (if isDig a ∧ isDig b ∧ dv a = 6 ∧ dv b ≤ 1 then [(60 + dv b, r)] else []) ++
     (if isDig a ∧ isDig b ∧ dv a ≤ 5 then [(10 * dv a + dv b, r)] else [])
   | _ => []) ++
  (match cs with
   | a :: r => if isDig a then [(dv a, r)] else []
   | [] => [])

/-- The range checks performed by the `datetime` constructor once the regex
has matched (strptime rejects e.g. second 60 or February 30 here). -/
def validDatetime (y m d h mi s : Nat) : Prop :=
  1 ≤ y ∧ y ≤ 9999 ∧ 1 ≤ m ∧ m ≤ 12 ∧ 1 ≤ d ∧ d ≤ daysInMonth y m ∧
    h ≤ 23 ∧ mi ≤ 59 ∧ s ≤ 59

instance (y m d h mi s : Nat) : Decidable (validDatetime y m d h mi s) := by
  unfold validDatetime; infer_instance

/-- Final step of the strptime parse: the match must consume the whole
string, and the `datetime` constructor must accept the fields. -/
def pcFin (y m d h mi : Nat) : Nat × List Char → List Civil
  | (se, rest) =>
    if rest = [] ∧ validDatetime y m d h mi se then [⟨y, m, d, h, mi, se⟩]
    else []

/-- Parse `%S` and finish. -/
def pcSec (y m d h mi : Nat) (r : List Char) : List Civil :=
  (ps r).flatMap (pcFin y m d h mi)

/-- Consume the `:` before the seconds. -/
def pcMin2 (y m d h : Nat) : Nat × List Char → List Civil
  | (mi, rest) => (pLit ':' rest).flatMap (pcSec y m d h mi)

/-- Parse `%M` and continue. -/
def pcMin (y m d h : Nat) (r : List Char) : List Civil :=
  (pmin r).flatMap (pcMin2 y m d h)

/-- Consume the `:` before the minutes. -/
def pcHour2 (y m d : Nat) : Nat × List Char → List Civil
  | (h, rest) => (pLit ':' rest).flatMap (pcMin y m d h)

/-- Parse `%H` and continue. -/
def pcHour (y m d : Nat) (r : List Char) : List Civil :=
  (ph r).flatMap (pcHour2 y m d)

/-- Consume the whitespace between date and time. -/
def pcDay2 (y m : Nat) : Nat × List Char → List Civil
  | (d, rest) => (pWs rest).flatMap (pcHour y m d)

/-- Parse `%d` and continue. -/
def pcDay (y m : Nat) (r : List Char) : List Civil :=
  (pd r).flatMap (pcDay2 y m)

/-- Consume the `-` before the day. -/
def pcMon2 (y : Nat) : Nat × List Char → List Civil
  | (m, rest) => (pLit '-' rest).flatMap (pcDay y m)

/-- Parse `%m` and continue. -/
def pcMon (y : Nat) (r : List Char) : List Civil :=
  (pm r).flatMap (pcMon2 y)

/-- Consume the `-` before the month. -/
def pcYear2 : Nat × List Char → List Civil
  | (y, rest) => (pLit '-' rest).flatMap (pcMon y)

/-- All full-string parses of `datetime.strptime(cs, '%Y-%m-%d %H:%M:%S')`
(update.py:131), with regex backtracking modelled by keeping every
alternative of every directive and collecting every complete parse. -/
def parseCandidates (cs : List Char) : List Civil :=
  (pY cs).flatMap pcYear2

/-- `datetime.strptime(s, '%Y-%m-%d %H:%M:%S')` (update.py:131), `none` when
it raises `ValueError`. -/
def strptimeYmdHMS (s : String) : Option Civil :=
  (parseCandidates s.data).head?

/-- The scalar found under `latest_time` in the Dune result row: either an
already-numeric value or a textual timestamp (update.py:127-137). -/
inductive LatestValue
  | num (n : Int)
  | text (s : String)
deriving DecidableEq

/-- One Dune result row; `latest_time` is `none` when the key is missing
(update.py:121). -/
structure ResultRow where
  latest_time : Option LatestValue
deriving DecidableEq

/-- The outcome of executing the latest-timestamp query: `failure` covers any
exception raised while submitting, polling, or fetching (update.py:109-113),
`success` carries the result rows (update.py:116). -/
inductive QueryOutcome
  | failure
  | success (rows : List ResultRow)
deriving DecidableEq

/-- The conversion of `latest_time` to epoch seconds (update.py:126-137):
a textual value is cleaned by `stripMsUtc`, parsed by strptime and converted
as UTC; a `none` result models the `ValueError` that the surrounding
`except` block turns into `None`. A numeric value is returned as `int(...)`. -/
def parseLatestTime : LatestValue → Option Int
  | .num n => some n
  | .text s =>
    match strptimeYmdHMS (stripMsUtc s) with
    | none => none
    | some c => some (timestampOfCivil c)

/-- `DuneClient.getLatestTimestamp` (update.py:103-145): `none` on any
failure, on an empty result set, on a missing `latest_time` column, and on
an unparsable textual timestamp. -/
def getLatestTimestamp : QueryOutcome → Option Int
  | .failure => none
  | .success rows =>
    match rows with
    | [] => none
    | row :: _ =>
      match row.latest_time with
      | none => none
      | some v => parseLatestTime v

/-- The timestamp filter of `SubgraphClient.queryMoves` (update.py:157-160):
with no checkpoint the query has no lower bound; with a checkpoint it keeps
exactly the records with strictly greater timestamp (`timestamp_gt`). -/
def moveFilter (afterTimestamp : Option Int) (ts : Int) : Bool :=
  match afterTimestamp with
  | none => true
  | some t => t < ts

/-- One bulk-insert call actually issued to Dune (update.py:412 and 423);
`DuneClient.insertData` does not call the network on an empty row list
(update.py:75-77). -/
inductive InsCall
  | gameMovesIns (rows : List GameMove)
  | movesIns (rows : List DuneMove)
deriving DecidableEq

/-- The game moves associated with one batch (update.py:398-405): those whose
`move_id` is in the batch's set of move ids. -/
def batchGameMoves (gameMoves : List GameMove) (b : List Move) : List GameMove :=
  gameMoves.filter fun gm => gm.move_id ∈ b.map Move.id

/-- The insert calls one batch contributes when both inserts succeed:
game moves first (omitted when there are none), then the moves with
`raw_timestamp` stripped (update.py:409-424). -/
def perBatchCalls (gameMoves : List GameMove) (b : List Move) : List InsCall :=
  (if batchGameMoves gameMoves b = [] then []
   else [InsCall.gameMovesIns (batchGameMoves gameMoves b)]) ++
  (if b.map stripRaw = [] then [] else [InsCall.movesIns (b.map stripRaw)])

/-- The batch loop of `DataSyncer.insertAllData` (update.py:395-431), with
the success of each network insert supplied by the oracles `okGM`/`okMv`
(indexed by batch number).  Returns the insert calls that landed and whether
the loop aborted with an exception; a failed call inserts nothing, and a
failure stops the loop immediately (`raise`, update.py:428-431). -/
def insertBatchesGo (okGM okMv : Nat → Bool) (gameMoves : List GameMove) :
    Nat → List (List Move) → List InsCall × Bool
  | _, [] => ([], false)
  | i, b :: rest =>
    if batchGameMoves gameMoves b ≠ [] ∧ okGM i = false then ([], true)
    else if b.map stripRaw ≠ [] ∧ okMv i = false then
      (if batchGameMoves gameMoves b = [] then []
       else [InsCall.gameMovesIns (batchGameMoves gameMoves b)], true)
    else
      ((if batchGameMoves gameMoves b = [] then []
        else [InsCall.gameMovesIns (batchGameMoves gameMoves b)]) ++
       (if b.map stripRaw = [] then []
        else [InsCall.movesIns (b.map stripRaw)]) ++
       (insertBatchesGo okGM okMv gameMoves (i + 1) rest).1,
       (insertBatchesGo okGM okMv gameMoves (i + 1) rest).2)

/-- `DataSyncer.insertAllData` (update.py:378-435): return early when there
is nothing at all to insert, otherwise partition the moves with
`createTimestampBatches` and run the batch loop. -/
def insertAllData (okGM okMv : Nat → Bool) (moves : List Move)
    (gameMoves : List GameMove) (insertBatchSize : Nat) : List InsCall × Bool :=
  if moves = [] ∧ gameMoves = [] then ([], false)
  else insertBatchesGo okGM okMv gameMoves 0 (createTimestampBatches moves insertBatchSize)

/-- Inside one produced batch, every element after the first either repeats
the previous element's timestamp or sits at a position still below the
configured batch size — i.e. the batching rule had no reason to split. -/
def chunkOk (bs : Nat) (b : List Move) : Prop :=
  ∀ (j : Nat) (x y : Move), b[j]? = some x → b[j + 1]? = some y →
    y.timestamp = x.timestamp ∨ j + 1 < bs

/-- Relation between two adjacent produced batches: the left one was closed,
so it already held at least `bs` moves and the right one starts with a
different timestamp. -/
def Rb (bs : Nat) (b1 b2 : List Move) : Prop :=
  bs ≤ b1.length ∧
  ∀ m1 m2, b1.getLast? = some m1 → b2.head? = some m2 →
    m1.timestamp ≠ m2.timestamp

/-- Invariant of the batching loop state after at least one move has been
consumed. -/
def StInv (bs : Nat) (s : BatchState) : Prop :=
  s.currentBatchSize = s.currentBatch.length ∧
  s.currentBatch ≠ [] ∧
  s.currentTimestamp = s.currentBatch.getLast?.map Move.timestamp ∧
  (∀ b ∈ s.batches, b ≠ []) ∧
  (∀ b ∈ s.batches, chunkOk bs b) ∧
  chunkOk bs s.currentBatch ∧
  List.Chain' (Rb bs) (s.batches ++ [s.currentBatch])

lemma chunkOk_singleton (bs : Nat) (m : Move) : chunkOk bs [m] := by
  intro j x y hx hy
  rcases j with _ | j <;> simp at hy

lemma chunkOk_concat {bs : Nat} {b : List Move} {m : Move}
    (hb : chunkOk bs b)
    (hcase : (∀ x, b.getLast? = some x → m.timestamp = x.timestamp) ∨
      b.length < bs) :
    chunkOk bs (b ++ [m]) := by
  intro j x y hx hy
  have hylt : j + 1 < b.length + 1 := by
    have := List.getElem?_eq_some_iff.mp hy
    simpa using this.1
  rcases Nat.lt_or_ge (j + 1) b.length with hlt | hge
  · exact hb j x y (by rw [List.getElem?_append_left (by omega)] at hx; exact hx)
      (by rw [List.getElem?_append_left hlt] at hy; exact hy)
  · have hj1 : j + 1 = b.length := by omega
    have hym : y = m := by
      rw [List.getElem?_append_right (by omega)] at hy
      simp [hj1] at hy
      exact hy.symm
    rcases hcase with hsame | hlen
    · left
      have hxl : b.getLast? = some x := by
        rw [List.getLast?_eq_getElem?]
        rw [List.getElem?_append_left (by omega)] at hx
        rw [← hx]
        congr 1
        omega
      rw [hym]
      exact hsame x hxl
    · right; omega

lemma Rb_concat_right {bs : Nat} {b1 b2 : List Move} {m : Move}
    (h : Rb bs b1 b2) (hne : b2 ≠ []) : Rb bs b1 (b2 ++ [m]) := by
  obtain ⟨hl, hts⟩ := h
  refine ⟨hl, fun m1 m2 h1 h2 => ?_⟩
  apply hts m1 m2 h1
  rcases b2 with _ | ⟨c, cs⟩
  · exact absurd rfl hne
  · simpa using h2

lemma batchStep_stinv (bs : Nat) (s : BatchState) (m : Move)
    (h : StInv bs s) : StInv bs (batchStep bs s m) := by
  obtain ⟨hsz, hne, hts, hbne, hbok, hcok, hch⟩ := h
  unfold batchStep
  by_cases hc : s.currentTimestamp ≠ none ∧ some m.timestamp ≠ s.currentTimestamp ∧
      bs ≤ s.currentBatchSize
  · rw [if_pos hc, if_pos hne]
    obtain ⟨mls, hmls⟩ : ∃ x, s.currentBatch.getLast? = some x := by
      rcases hx : s.currentBatch.getLast? with _ | x
      · exact absurd (List.getLast?_eq_none_iff.mp hx) hne
      · exact ⟨x, rfl⟩
    refine ⟨rfl, by simp, by simp, ?_, ?_, chunkOk_singleton bs m, ?_⟩
    · intro b hb
      rcases List.mem_append.mp hb with hb | hb
      · exact hbne b hb
      · simp at hb; subst hb; exact hne
    · intro b hb
      rcases List.mem_append.mp hb with hb | hb
      · exact hbok b hb
      · simp at hb; subst hb; exact hcok
    · rw [List.chain'_append]
      refine ⟨hch, List.chain'_singleton _, ?_⟩
      intro x hx y hy
      rw [List.getLast?_concat] at hx
      simp at hx hy
      subst hx; subst hy
      constructor
      · rw [hsz] at hc; exact hc.2.2
      · intro m1 m2 h1 h2
        simp at h2
        subst h2
        rw [hts, h1] at hc
        intro hcontra
        exact hc.2.1 (by simp [Option.map, hcontra])
  · rw [if_neg hc]
    have htsne : s.currentTimestamp ≠ none := by
      obtain ⟨mls, hmls⟩ : ∃ x, s.currentBatch.getLast? = some x := by
        rcases hx : s.currentBatch.getLast? with _ | x
        · exact absurd (List.getLast?_eq_none_iff.mp hx) hne
        · exact ⟨x, rfl⟩
      rw [hts, hmls]
      simp
    have hrest : some m.timestamp = s.currentTimestamp ∨ s.currentBatchSize < bs := by
      by_contra hcon
      push_neg at hcon
      exact hc ⟨htsne, hcon.1, by omega⟩
    refine ⟨by simp [hsz], by simp, by simp, hbne, hbok, ?_, ?_⟩
    · apply chunkOk_concat hcok
      rcases hrest with heq | hlt
      · left
        intro x hx
        rw [hts, hx] at heq
        simpa using heq
      · right; omega
    · rw [List.chain'_append] at hch ⊢
      refine ⟨hch.1, List.chain'_singleton _, ?_⟩
      intro x hx y hy
      simp at hy
      subst hy
      exact Rb_concat_right (hch.2.2 x hx (s.currentBatch) (by simp)) hne

lemma batchStep_join (bs : Nat) (s : BatchState) (m : Move) :
    (batchStep bs s m).batches.flatten ++ (batchStep bs s m).currentBatch =
      s.batches.flatten ++ s.currentBatch ++ [m] := by
  unfold batchStep
  by_cases hc : s.currentTimestamp ≠ none ∧ some m.timestamp ≠ s.currentTimestamp ∧
      bs ≤ s.currentBatchSize
  · rw [if_pos hc]
    by_cases hne : s.currentBatch ≠ []
    · rw [if_pos hne]; simp
    · rw [if_neg hne]
      push_neg at hne
      simp [hne]
  · rw [if_neg hc]; simp

lemma foldl_batchStep_stinv (bs : Nat) (l : List Move) :
    ∀ s : BatchState, StInv bs s → StInv bs (l.foldl (batchStep bs) s) := by
  induction l with
  | nil => intro s h; exact h
  | cons m ms ih =>
    intro s h
    rw [List.foldl_cons]
    exact ih _ (batchStep_stinv bs s m h)

lemma foldl_batchStep_join (bs : Nat) (l : List Move) :
    ∀ s : BatchState,
      (l.foldl (batchStep bs) s).batches.flatten ++
        (l.foldl (batchStep bs) s).currentBatch =
      s.batches.flatten ++ s.currentBatch ++ l := by
  induction l with
  | nil => intro s; simp
  | cons m ms ih =>
    intro s
    rw [List.foldl_cons, ih (batchStep bs s m), batchStep_join]
    simp

/-- Structural description of `createTimestampBatches`: the batches
concatenate back to the input, every batch is non-empty, no batch splits
without cause (`chunkOk`), and adjacent batches witness a genuine split
(`Rb`). -/
lemma createTimestampBatches_spec (moves : List Move) (bs : Nat) :
    (createTimestampBatches moves bs).flatten = moves ∧
    (∀ b ∈ createTimestampBatches moves bs, b ≠ []) ∧
    (∀ b ∈ createTimestampBatches moves bs, chunkOk bs b) ∧
    List.Chain' (Rb bs) (createTimestampBatches moves bs) := by
  rcases hmv : moves with _ | ⟨m, ms⟩
  · simp [createTimestampBatches]
  · have hinit : StInv bs (batchStep bs
        { batches := [], currentBatch := [], currentBatchSize := 0,
          currentTimestamp := none } m) := by
      unfold batchStep
      rw [if_neg (by simp)]
      exact ⟨rfl, by simp, by simp, by simp, by simp,
        chunkOk_singleton bs m, by simp [List.chain'_singleton, Rb]⟩
    have hs : StInv bs ((m :: ms).foldl (batchStep bs)
        { batches := [], currentBatch := [], currentBatchSize := 0,
          currentTimestamp := none }) := by
      rw [List.foldl_cons]
      exact foldl_batchStep_stinv bs ms _ hinit
    have hj := foldl_batchStep_join bs (m :: ms)
      { batches := [], currentBatch := [], currentBatchSize := 0,
        currentTimestamp := none }
    set sF := (m :: ms).foldl (batchStep bs)
      { batches := [], currentBatch := [], currentBatchSize := 0,
        currentTimestamp := none } with hsF
    obtain ⟨hsz, hne, hts, hbne, hbok, hcok, hch⟩ := hs
    have hres : createTimestampBatches (m :: ms) bs = sF.batches ++ [sF.currentBatch] := by
      unfold createTimestampBatches
      rw [← hsF, if_pos hne]
    rw [hres]
    refine ⟨?_, ?_, ?_, hch⟩
    · rw [List.flatten_append]
      simpa using hj
    · intro b hb
      rcases List.mem_append.mp hb with hb | hb
      · exact hbne b hb
      · simp at hb; subst hb; exact hne
    · intro b hb
      rcases List.mem_append.mp hb with hb | hb
      · exact hbok b hb
      · simp at hb; subst hb; exact hcok

lemma sorted_head_le {α : Type} [LinearOrder α] {l : List α} {a x : α}
    (hs : List.Sorted (· ≤ ·) l) (hh : l.head? = some a) (hx : x ∈ l) :
    a ≤ x := by
  rcases l with _ | ⟨c, cs⟩
  · simp at hh
  · simp at hh
    subst hh
    rcases List.mem_cons.mp hx with hx | hx
    · subst hx; exact le_refl x
    · exact (List.sorted_cons.mp hs).1 x hx

lemma sorted_le_getLast {α : Type} [LinearOrder α] {l : List α} {a x : α}
    (hs : List.Sorted (· ≤ ·) l) (hl : l.getLast? = some a) (hx : x ∈ l) :
    x ≤ a := by
  induction l with
  | nil => simp at hl
  | cons c cs ih =>
    rcases cs with _ | ⟨d, ds⟩
    · simp at hl hx
      subst hl; subst hx
      exact le_rfl
    · rw [List.getLast?_cons_cons] at hl
      have hs2 := List.sorted_cons.mp hs
      rcases List.mem_cons.mp hx with hx | hx
      · subst hx
        have ha : a ∈ d :: ds := List.mem_of_mem_getLast? hl
        exact hs2.1 a ha
      · exact ih hs2.2 hl hx

/-- Under a sorted input, the batches produced by a boundary-respecting
partition carry pairwise disjoint timestamp sets. -/
lemma batches_ts_disjoint {bs : Nat} :
    ∀ L : List (List Move),
      (∀ b ∈ L, b ≠ []) → List.Chain' (Rb bs) L →
      List.Sorted (· ≤ ·) (L.flatten.map Move.timestamp) →
      List.Pairwise (fun b1 b2 => ∀ m1 ∈ b1, ∀ m2 ∈ b2,
        m1.timestamp ≠ m2.timestamp) L := by
  intro L
  induction L with
  | nil => intro _ _ _; exact List.Pairwise.nil
  | cons b L ih =>
    intro hne hch hs
    have hsL : List.Sorted (· ≤ ·) (L.flatten.map Move.timestamp) := by
      refine hs.sublist ?_
      apply List.Sublist.map
      simp only [List.flatten_cons]
      exact List.sublist_append_right b L.flatten
    refine List.Pairwise.cons ?_ (ih (fun x hx => hne x (List.mem_cons_of_mem b hx))
      (hch.tail) hsL)
    intro b2 hb2 m1 hm1 m2 hm2 heq
    rcases L with _ | ⟨bh, L2⟩
    · simp at hb2
    · have hRb : Rb bs b bh := (List.chain'_cons.mp hch).1
      have hbne : b ≠ [] := hne b (by simp)
      have hbhne : bh ≠ [] := hne bh (by simp)
      obtain ⟨lb, hlb⟩ : ∃ x, b.getLast? = some x := by
        rcases hx : b.getLast? with _ | x
        · exact absurd (List.getLast?_eq_none_iff.mp hx) hbne
        · exact ⟨x, rfl⟩
      obtain ⟨hh0, hhh0⟩ : ∃ x, bh.head? = some x := by
        rcases hx : bh.head? with _ | x
        · exact absurd (List.head?_eq_none_iff.mp hx) hbhne
        · exact ⟨x, rfl⟩
      have hneq : lb.timestamp ≠ hh0.timestamp := hRb.2 lb hh0 hlb hhh0
      have hsb : List.Sorted (· ≤ ·) (b.map Move.timestamp) := by
        refine hs.sublist (List.Sublist.map _ ?_)
        simp only [List.flatten_cons]
        exact List.sublist_append_left b (bh :: L2).flatten
      have hm1le : m1.timestamp ≤ lb.timestamp := by
        refine sorted_le_getLast hsb ?_ (List.mem_map_of_mem Move.timestamp hm1)
        rw [List.getLast?_map, hlb]
        rfl
      have hcross : lb.timestamp ≤ hh0.timestamp := by
        have hs2 : List.Sorted (· ≤ ·) (b.map Move.timestamp ++
            (bh :: L2).flatten.map Move.timestamp) := by
          rw [← List.map_append, ← List.flatten_cons]
          exact hs
        have hsplit := (List.pairwise_append.mp hs2).2.2
        exact hsplit lb.timestamp
          (List.mem_map_of_mem Move.timestamp (List.mem_of_mem_getLast? hlb))
          hh0.timestamp
          (List.mem_map_of_mem Move.timestamp
            (List.mem_flatten.mpr ⟨bh, by simp, List.mem_of_mem_head? hhh0⟩))
      have hm2ge : hh0.timestamp ≤ m2.timestamp := by
        have hhead : ((bh :: L2).flatten.map Move.timestamp).head? =
            some hh0.timestamp := by
          rcases bh with _ | ⟨c, cs⟩
          · exact absurd rfl hbhne
          · simp at hhh0
            subst hhh0
            simp [List.flatten_cons]
        refine sorted_head_le hsL hhead ?_
        exact List.mem_map_of_mem Move.timestamp
          (List.mem_flatten.mpr ⟨b2, hb2, hm2⟩)
      have : lb.timestamp = hh0.timestamp := by
        have h1 : m1.timestamp ≤ hh0.timestamp := le_trans hm1le hcross
        have h2 : hh0.timestamp ≤ m1.timestamp := heq ▸ hm2ge
        exact le_antisymm hcross (le_trans h2 hm1le)
      exact hneq this

/-- Sample rows used to instantiate hypotheses of the claim theorems. -/
def sampleMove1 : Move :=
  { id := "m1", timestamp := "2024-01-01T00:00:00+00:00", txid := "t1",
    name := "n1", raw_timestamp := some 100 }

/-- Second sample row, with a later timestamp. -/
def sampleMove2 : Move :=
  { id := "m2", timestamp := "2024-01-02T00:00:00+00:00", txid := "t2",
    name := "n2", raw_timestamp := some 200 }

/-- **C2**: for every list of Moves held in non-decreasing timestamp order
and every insert batch size, no `DeliveryBatch` holds a strict subset of a
timestamp group while another batch holds the remainder (distinct batches
have disjoint timestamps), and a new batch starts precisely when the current
move's timestamp differs from its predecessor's while the running count has
reached the batch size: adjacent batches always witness such a split
(`Rb`), and inside a batch no position ever satisfies the split condition
(`chunkOk`). -/
theorem claim_C2_timestamp_batching (moves : List Move) (bs : Nat)
    (hsorted : List.Sorted (· ≤ ·) (moves.map Move.timestamp)) :
    (∀ (i j : Nat) (bi bj : List Move),
        (createTimestampBatches moves bs)[i]? = some bi →
        (createTimestampBatches moves bs)[j]? = some bj → i ≠ j →
        ∀ m1 ∈ bi, ∀ m2 ∈ bj, m1.timestamp ≠ m2.timestamp) ∧
    List.Chain' (Rb bs) (createTimestampBatches moves bs) ∧
    ∀ b ∈ createTimestampBatches moves bs, chunkOk bs b := by
  obtain ⟨hj, hne, hok, hch⟩ := createTimestampBatches_spec moves bs
  refine ⟨?_, hch, hok⟩
  have hpw := batches_ts_disjoint (createTimestampBatches moves bs) hne hch
    (by rw [hj]; exact hsorted)
  intro i j bi bj hi hjx hij m1 hm1 m2 hm2
  rw [List.getElem?_eq_some_iff] at hi hjx
  obtain ⟨hi1, hi2⟩ := hi
  obtain ⟨hj1, hj2⟩ := hjx
  have hiff := List.pairwise_iff_getElem.mp hpw
  rcases Nat.lt_trichotomy i j with hlt | heq | hgt
  · exact hiff i j hi1 hj1 hlt m1 (by rw [hi2]; exact hm1) m2 (by rw [hj2]; exact hm2)
  · exact absurd heq hij
  · intro hc
    exact hiff j i hj1 hi1 hgt m2 (by rw [hj2]; exact hm2) m1 (by rw [hi2]; exact hm1) hc.symm

theorem claim_C2_timestamp_batching_witness :
    List.Sorted (· ≤ ·) ([sampleMove1, sampleMove2].map Move.timestamp) ∧
    ((∀ (i j : Nat) (bi bj : List Move),
        (createTimestampBatches [sampleMove1, sampleMove2] 1)[i]? = some bi →
        (createTimestampBatches [sampleMove1, sampleMove2] 1)[j]? = some bj → i ≠ j →
        ∀ m1 ∈ bi, ∀ m2 ∈ bj, m1.timestamp ≠ m2.timestamp) ∧
      List.Chain' (Rb 1) (createTimestampBatches [sampleMove1, sampleMove2] 1) ∧
      ∀ b ∈ createTimestampBatches [sampleMove1, sampleMove2] 1, chunkOk 1 b) :=
  ⟨by
    simp only [List.map_cons, List.map_nil, List.sorted_cons, List.mem_singleton,
      List.sorted_singleton, and_true, forall_eq]
    rw [String.le_iff_toList_le]
    decide,
   claim_C2_timestamp_batching [sampleMove1, sampleMove2] 1 (by
    simp only [List.map_cons, List.map_nil, List.sorted_cons, List.mem_singleton,
      List.sorted_singleton, and_true, forall_eq]
    rw [String.le_iff_toList_le]
    decide)⟩

/-- **C9**: concatenating the produced DeliveryBatches, in order, yields
exactly the input move list — no move is lost, duplicated, or reordered —
and every produced batch is non-empty. -/
theorem claim_C9_batch_partition (moves : List Move) (bs : Nat) :
    (createTimestampBatches moves bs).flatten = moves ∧
    ∀ b ∈ createTimestampBatches moves bs, b ≠ [] :=
  ⟨(createTimestampBatches_spec moves bs).1, (createTimestampBatches_spec moves bs).2.1⟩

lemma le_foldl_max_init (l : List Int) : ∀ a : Int, a ≤ l.foldl max a := by
  induction l with
  | nil => intro a; simp
  | cons y ys ih =>
    intro a
    rw [List.foldl_cons]
    exact le_trans (le_max_left a y) (ih (max a y))

lemma foldl_max_mem (l : List Int) : ∀ a : Int, l.foldl max a = a ∨ l.foldl max a ∈ l := by
  induction l with
  | nil => intro a; simp
  | cons y ys ih =>
    intro a
    rw [List.foldl_cons]
    rcases ih (max a y) with h | h
    · rcases max_choice a y with hm | hm
      · left; rw [h, hm]
      · right; rw [h, hm]; exact List.mem_cons_self y ys
    · right; exact List.mem_cons_of_mem y h

lemma le_foldl_max (l : List Int) : ∀ (a x : Int), x ∈ l → x ≤ l.foldl max a := by
  induction l with
  | nil => intro a x hx; simp at hx
  | cons y ys ih =>
    intro a x hx
    rw [List.foldl_cons]
    rcases List.mem_cons.mp hx with hx | hx
    · subst hx
      exact le_trans (le_max_right a x) (le_foldl_max_init ys (max a x))
    · exact ih (max a y) x hx

lemma maxFold_mem (l : List Int) (hl : l ≠ []) : maxFold l ∈ l := by
  rcases l with _ | ⟨x, xs⟩
  · exact absurd rfl hl
  · show xs.foldl max x ∈ x :: xs
    rcases foldl_max_mem xs x with h | h
    · rw [h]; exact List.mem_cons_self x xs
    · exact List.mem_cons_of_mem x h

lemma le_maxFold (l : List Int) (x : Int) (hx : x ∈ l) : x ≤ maxFold l := by
  rcases l with _ | ⟨y, ys⟩
  · simp at hx
  · show x ≤ ys.foldl max y
    rcases List.mem_cons.mp hx with hx | hx
    · subst hx; exact le_foldl_max_init ys x
    · exact le_foldl_max ys y x hx

/-- **C1**: in a limited run with a non-empty accumulation (where every
accumulated move carries its raw timestamp and every accumulated game move
references an accumulated move), `postprocessLimitedData` removes exactly the
moves whose raw timestamp equals the maximum raw timestamp `L`, removes
exactly the game moves whose `move_id` is among the removed moves' ids, and
afterwards no remaining game move references a move id absent from the
remaining move set. -/
theorem claim_C1_truncation (moves : List Move) (gameMoves : List GameMove)
    (h1 : moves ≠ [])
    (h2 : ∀ m ∈ moves, (m.raw_timestamp).isSome)
    (h3 : ∀ gm ∈ gameMoves, gm.move_id ∈ moves.map Move.id) :
    ∃ L : Int,
      L ∈ moves.map rawOf ∧ (∀ m ∈ moves, rawOf m ≤ L) ∧
      (postprocessLimitedData moves gameMoves).1 =
        (moves.filter fun m => ¬ rawOf m = L).map
          (fun m => { m with raw_timestamp := none }) ∧
      (postprocessLimitedData moves gameMoves).2 =
        gameMoves.filter
          (fun gm => ¬ gm.move_id ∈ (moves.filter fun m => rawOf m = L).map Move.id) ∧
      ∀ gm ∈ (postprocessLimitedData moves gameMoves).2,
        gm.move_id ∈ ((postprocessLimitedData moves gameMoves).1).map Move.id := by
  rcases hmv : moves with _ | ⟨m0, ms⟩
  · exact absurd hmv h1
  · subst hmv
    refine ⟨maxFold ((m0 :: ms).map rawOf), ?_, ?_, rfl, rfl, ?_⟩
    · exact maxFold_mem _ (by simp)
    · intro m hm
      exact le_maxFold _ (rawOf m) (List.mem_map_of_mem rawOf hm)
    · intro gm hgm
      have hmem := List.mem_filter.mp hgm
      have hin : gm ∈ gameMoves := hmem.1
      have hnot : ¬ gm.move_id ∈ ((m0 :: ms).filter fun m =>
          rawOf m = maxFold ((m0 :: ms).map rawOf)).map Move.id :=
        of_decide_eq_true hmem.2
      obtain ⟨mx, hmx, hmxid⟩ := List.mem_map.mp (h3 gm hin)
      have hraw : ¬ rawOf mx = maxFold ((m0 :: ms).map rawOf) := by
        intro hcon
        exact hnot (List.mem_map.mpr
          ⟨mx, List.mem_filter.mpr ⟨hmx, decide_eq_true hcon⟩, hmxid⟩)
      refine List.mem_map.mpr ⟨{ mx with raw_timestamp := none }, ?_, hmxid⟩
      exact List.mem_map.mpr ⟨mx, List.mem_filter.mpr ⟨hmx, decide_eq_true hraw⟩, rfl⟩

/-- Sample game-move rows for the claim witnesses. -/
def sampleGameMove1 : GameMove := { move_id := "m1", game := "g1" }

/-- Second sample game-move row. -/
def sampleGameMove2 : GameMove := { move_id := "m2", game := "g2" }

theorem claim_C1_truncation_witness :
    ([sampleMove1, sampleMove2] ≠ ([] : List Move)) ∧
    (∀ m ∈ [sampleMove1, sampleMove2], (m.raw_timestamp).isSome) ∧
    (∀ gm ∈ [sampleGameMove1, sampleGameMove2],
      gm.move_id ∈ [sampleMove1, sampleMove2].map Move.id) ∧
    (∃ L : Int,
      L ∈ [sampleMove1, sampleMove2].map rawOf ∧
      (∀ m ∈ [sampleMove1, sampleMove2], rawOf m ≤ L) ∧
      (postprocessLimitedData [sampleMove1, sampleMove2]
        [sampleGameMove1, sampleGameMove2]).1 =
        ([sampleMove1, sampleMove2].filter fun m => ¬ rawOf m = L).map
          (fun m => { m with raw_timestamp := none }) ∧
      (postprocessLimitedData [sampleMove1, sampleMove2]
        [sampleGameMove1, sampleGameMove2]).2 =
        [sampleGameMove1, sampleGameMove2].filter
          (fun gm => ¬ gm.move_id ∈
            ([sampleMove1, sampleMove2].filter fun m => rawOf m = L).map Move.id) ∧
      ∀ gm ∈ (postprocessLimitedData [sampleMove1, sampleMove2]
          [sampleGameMove1, sampleGameMove2]).2,
        gm.move_id ∈ ((postprocessLimitedData [sampleMove1, sampleMove2]
          [sampleGameMove1, sampleGameMove2]).1).map Move.id) :=
  ⟨by decide, by decide, by decide,
    claim_C1_truncation [sampleMove1, sampleMove2] [sampleGameMove1, sampleGameMove2]
      (by decide) (by decide) (by decide)⟩

lemma processPage_inv (mm : Nat) :
    ∀ (page : List URecord) (s : RetState),
      s.totalMoves = s.moves.length → s.totalMoves ≤ mm →
      (processPage mm s page).totalMoves = (processPage mm s page).moves.length ∧
      (processPage mm s page).totalMoves ≤ mm := by
  intro page
  induction page with
  | nil => intro s h1 h2; exact ⟨h1, h2⟩
  | cons r rs ih =>
    intro s h1 h2
    show (processPage mm s (r :: rs)).totalMoves = _ ∧ _
    unfold processPage
    by_cases hc : mm ≤ s.totalMoves
    · rw [if_pos hc]
      exact ⟨h1, h2⟩
    · rw [if_neg hc]
      refine ih _ (by simp [h1]) ?_
      show s.totalMoves + 1 ≤ mm
      omega

lemma retrieveLoop_inv (mm bs : Nat) :
    ∀ (pages : List (List URecord)) (s : RetState),
      s.totalMoves = s.moves.length → s.totalMoves ≤ mm →
      (retrieveLoop mm bs s pages).totalMoves =
        (retrieveLoop mm bs s pages).moves.length ∧
      (retrieveLoop mm bs s pages).totalMoves ≤ mm := by
  intro pages
  induction pages with
  | nil => intro s h1 h2; exact ⟨h1, h2⟩
  | cons p rest ih =>
    intro s h1 h2
    unfold retrieveLoop
    by_cases hp : p = []
    · rw [if_pos hp]; exact ⟨h1, h2⟩
    · rw [if_neg hp]
      obtain ⟨h1x, h2x⟩ := processPage_inv mm p s h1 h2
      by_cases hl : (processPage mm s p).reachedLimit
      · rw [if_pos hl]; exact ⟨h1x, h2x⟩
      · rw [if_neg hl]
        by_cases hlen : p.length < bs
        · rw [if_pos hlen]; exact ⟨h1x, h2x⟩
        · rw [if_neg hlen]; exact ih _ h1x h2x

lemma postprocess_len_le (moves : List Move) (gameMoves : List GameMove) :
    (postprocessLimitedData moves gameMoves).1.length ≤ moves.length := by
  rcases moves with _ | ⟨m0, ms⟩
  · simp [postprocessLimitedData]
  · show (((m0 :: ms).filter _).map _).length ≤ _
    rw [List.length_map]
    exact List.length_filter_le _ _

/-- **C3**: the number of accumulated moves never exceeds the `maxMoves` cap;
once the count has reached the cap while a page still has unconsumed records,
the next record is rejected together with the rest of its page and the run is
marked limited, a limited page stops the pagination unconditionally (no
subsequent page is read), and a limited run applies the truncation step. -/
theorem claim_C3_max_moves_cap (mm bs : Nat) (pages : List (List URecord)) :
    (retrieveAllData mm bs pages).moves.length ≤ mm ∧
    (∀ (s : RetState) (r : URecord) (rs : List URecord),
      mm ≤ s.totalMoves →
      processPage mm s (r :: rs) = { s with reachedLimit := true }) ∧
    (∀ (s : RetState) (p : List URecord) (rest : List (List URecord)),
      p ≠ [] → (processPage mm s p).reachedLimit = true →
      retrieveLoop mm bs s (p :: rest) = processPage mm s p) ∧
    ((retrieveLoop mm bs initRetState pages).reachedLimit = true →
      (retrieveAllData mm bs pages).moves =
        (postprocessLimitedData (retrieveLoop mm bs initRetState pages).moves
          (retrieveLoop mm bs initRetState pages).gameMoves).1) := by
  refine ⟨?_, ?_, ?_, ?_⟩
  · have hinv := retrieveLoop_inv mm bs pages initRetState rfl (by simp [initRetState])
    unfold retrieveAllData
    by_cases hl : (retrieveLoop mm bs initRetState pages).reachedLimit
    · rw [if_pos hl]
      calc (postprocessLimitedData (retrieveLoop mm bs initRetState pages).moves
              (retrieveLoop mm bs initRetState pages).gameMoves).1.length
          ≤ (retrieveLoop mm bs initRetState pages).moves.length :=
            postprocess_len_le _ _
        _ ≤ mm := by rw [← hinv.1]; exact hinv.2
    · rw [if_neg hl]
      rw [← hinv.1]; exact hinv.2
  · intro s r rs h
    unfold processPage
    rw [if_pos h]
  · intro s p rest hp hl
    unfold retrieveLoop
    rw [if_neg hp, if_pos hl]
  · intro hl
    unfold retrieveAllData
    rw [if_pos hl]

/-- A subgraph record used to instantiate hypotheses of claim witnesses. -/
def sampleURecord : URecord :=
  { id := "m1", timestamp := 100, txid := "t1", name := "n1", games := ["g1"] }

theorem claim_C3_max_moves_cap_witness :
    ((0 : Nat) ≤ initRetState.totalMoves) ∧
    processPage 0 initRetState [sampleURecord] =
      { initRetState with reachedLimit := true } ∧
    ([sampleURecord] ≠ ([] : List URecord)) ∧
    (processPage 0 initRetState [sampleURecord]).reachedLimit = true ∧
    retrieveLoop 0 5 initRetState ([sampleURecord] :: [[sampleURecord]]) =
      processPage 0 initRetState [sampleURecord] ∧
    (retrieveLoop 0 5 initRetState [[sampleURecord]]).reachedLimit = true ∧
    (retrieveAllData 0 5 [[sampleURecord]]).moves =
      (postprocessLimitedData (retrieveLoop 0 5 initRetState [[sampleURecord]]).moves
        (retrieveLoop 0 5 initRetState [[sampleURecord]]).gameMoves).1 ∧
    (retrieveAllData 0 5 [[sampleURecord]]).moves.length ≤ 0 :=
  ⟨by decide,
   (claim_C3_max_moves_cap 0 5 [[sampleURecord]]).2.1 initRetState sampleURecord []
     (by decide),
   by decide,
   by decide,
   (claim_C3_max_moves_cap 0 5 [[sampleURecord]]).2.2.1 initRetState [sampleURecord]
     [[sampleURecord]] (by decide) (by decide),
   by decide,
   (claim_C3_max_moves_cap 0 5 [[sampleURecord]]).2.2.2 (by decide),
   (claim_C3_max_moves_cap 0 5 [[sampleURecord]]).1⟩

/-- Referential invariant of the accumulation: every accumulated game move
references an accumulated move's id. -/
def refOk (s : RetState) : Prop :=
  ∀ gm ∈ s.gameMoves, gm.move_id ∈ s.moves.map Move.id

instance (s : RetState) : Decidable (refOk s) := by
  unfold refOk; infer_instance

lemma processPage_refOk (mm : Nat) :
    ∀ (page : List URecord) (s : RetState), refOk s → refOk (processPage mm s page) := by
  intro page
  induction page with
  | nil => intro s h; exact h
  | cons r rs ih =>
    intro s h
    unfold processPage
    by_cases hc : mm ≤ s.totalMoves
    · rw [if_pos hc]; exact h
    · rw [if_neg hc]
      refine ih _ ?_
      intro gm hgm
      rcases List.mem_append.mp hgm with hgm | hgm
      · have := h gm hgm
        show gm.move_id ∈ (s.moves ++ [mkMove r]).map Move.id
        rw [List.map_append]
        exact List.mem_append_left _ this
      · obtain ⟨g, _, hg⟩ := List.mem_map.mp hgm
        show gm.move_id ∈ (s.moves ++ [mkMove r]).map Move.id
        rw [List.map_append]
        apply List.mem_append_right
        rw [← hg]
        simp [mkMove, mkGameMoves]

lemma retrieveLoop_refOk (mm bs : Nat) :
    ∀ (pages : List (List URecord)) (s : RetState),
      refOk s → refOk (retrieveLoop mm bs s pages) := by
  intro pages
  induction pages with
  | nil => intro s h; exact h
  | cons p rest ih =>
    intro s h
    unfold retrieveLoop
    by_cases hp : p = []
    · rw [if_pos hp]; exact h
    · rw [if_neg hp]
      have hpp := processPage_refOk mm p s h
      by_cases hl : (processPage mm s p).reachedLimit
      · rw [if_pos hl]; exact hpp
      · rw [if_neg hl]
        by_cases hlen : p.length < bs
        · rw [if_pos hlen]; exact hpp
        · rw [if_neg hlen]; exact ih _ hpp

/-- **C10**: at every point during Retrieve, every accumulated game move's
`move_id` equals the id of an already-accumulated move — a record's game
moves are emitted only after its move row is appended, so a move rejected by
the cap contributes no game moves and the referential invariant holds before
truncation: it is preserved by each page, by the whole pagination loop, and
holds for the loop started from the empty accumulation. -/
theorem claim_C10_ref_invariant :
    (∀ (mm : Nat) (page : List URecord) (s : RetState),
      refOk s → refOk (processPage mm s page)) ∧
    (∀ (mm bs : Nat) (pages : List (List URecord)) (s : RetState),
      refOk s → refOk (retrieveLoop mm bs s pages)) ∧
    (∀ (mm bs : Nat) (pages : List (List URecord)),
      refOk (retrieveLoop mm bs initRetState pages)) :=
  ⟨fun mm page s h => processPage_refOk mm page s h,
   fun mm bs pages s h => retrieveLoop_refOk mm bs pages s h,
   fun mm bs pages => retrieveLoop_refOk mm bs pages initRetState
     (fun gm hgm => absurd hgm (by simp [initRetState]))⟩

theorem claim_C10_ref_invariant_witness :
    refOk initRetState ∧
    refOk (processPage 5 initRetState [sampleURecord]) ∧
    refOk (retrieveLoop 5 2 initRetState [[sampleURecord]]) :=
  ⟨by decide,
   claim_C10_ref_invariant.1 5 [sampleURecord] initRetState (by decide),
   claim_C10_ref_invariant.2.1 5 2 [[sampleURecord]] initRetState (by decide)⟩

/-- **C8**: a page with zero records ends retrieval immediately, a non-empty
page shorter than the requested page size that did not hit the cap ends
retrieval at that page (subsequent pages are never consumed) without marking
the run limited, and a run that is not limited skips truncation entirely —
`retrieveAllData` returns the loop state unchanged, dropping nothing. -/
theorem claim_C8_short_page_termination (mm bs : Nat) :
    (∀ (s : RetState) (rest : List (List URecord)),
      retrieveLoop mm bs s ([] :: rest) = s) ∧
    (∀ (s : RetState) (p : List URecord) (rest : List (List URecord)),
      p ≠ [] → p.length < bs → (processPage mm s p).reachedLimit = false →
      retrieveLoop mm bs s (p :: rest) = processPage mm s p) ∧
    (∀ pages : List (List URecord),
      (retrieveLoop mm bs initRetState pages).reachedLimit = false →
      retrieveAllData mm bs pages = retrieveLoop mm bs initRetState pages) := by
  refine ⟨?_, ?_, ?_⟩
  · intro s rest
    unfold retrieveLoop
    rw [if_pos rfl]
  · intro s p rest hp hlen hlim
    unfold retrieveLoop
    rw [if_neg hp, if_neg (by rw [hlim]; exact Bool.false_ne_true), if_pos hlen]
  · intro pages h
    unfold retrieveAllData
    rw [if_neg (by rw [h]; exact Bool.false_ne_true)]

theorem claim_C8_short_page_termination_witness :
    retrieveLoop 10 5 initRetState ([] :: [[sampleURecord]]) = initRetState ∧
    ([sampleURecord] ≠ ([] : List URecord)) ∧
    ([sampleURecord].length < 5) ∧
    (processPage 10 initRetState [sampleURecord]).reachedLimit = false ∧
    retrieveLoop 10 5 initRetState ([sampleURecord] :: [[sampleURecord]]) =
      processPage 10 initRetState [sampleURecord] ∧
    (retrieveLoop 10 5 initRetState [[sampleURecord]]).reachedLimit = false ∧
    retrieveAllData 10 5 [[sampleURecord]] =
      retrieveLoop 10 5 initRetState [[sampleURecord]] :=
  ⟨(claim_C8_short_page_termination 10 5).1 initRetState [[sampleURecord]],
   by decide, by decide, by decide,
   (claim_C8_short_page_termination 10 5).2.1 initRetState [sampleURecord]
     [[sampleURecord]] (by decide) (by decide) (by decide),
   by decide,
   (claim_C8_short_page_termination 10 5).2.2 [[sampleURecord]] (by decide)⟩

lemma insertBatchesGo_all_ok (gameMoves : List GameMove) :
    ∀ (batches : List (List Move)) (i : Nat),
      (∀ b ∈ batches, b ≠ []) →
      insertBatchesGo (fun _ => true) (fun _ => true) gameMoves i batches =
        ((batches.map (perBatchCalls gameMoves)).flatten, false) := by
  intro batches
  induction batches with
  | nil => intro i _; rfl
  | cons b rest ih =>
    intro i hne
    have hb : b ≠ [] := hne b (by simp)
    have hmv : b.map stripRaw ≠ [] := by
      intro hcon
      exact hb (List.map_eq_nil_iff.mp hcon)
    unfold insertBatchesGo
    rw [if_neg (by simp), if_neg (by simp)]
    rw [ih (i + 1) (fun x hx => hne x (List.mem_cons_of_mem b hx))]
    simp only [List.map_cons, List.flatten_cons, perBatchCalls, if_neg hmv]

/-- **C7**: when every insert succeeds, delivery processes the
DeliveryBatches in partition order and, for each batch, first submits exactly
the game moves whose `move_id` lies in the batch's move-id set (no call when
there are none) and then submits the batch's moves with the `raw_timestamp`
field stripped: the full call trace is the in-order concatenation of
`perBatchCalls` over the batches, and the run does not fail. -/
theorem claim_C7_delivery_order (moves : List Move) (gameMoves : List GameMove)
    (bs : Nat) :
    (insertAllData (fun _ => true) (fun _ => true) moves gameMoves bs).2 = false ∧
    (insertAllData (fun _ => true) (fun _ => true) moves gameMoves bs).1 =
      ((createTimestampBatches moves bs).map (perBatchCalls gameMoves)).flatten := by
  unfold insertAllData
  by_cases hc : moves = [] ∧ gameMoves = []
  · rw [if_pos hc]
    rw [hc.1]
    exact ⟨rfl, rfl⟩
  · rw [if_neg hc]
    rw [insertBatchesGo_all_ok gameMoves _ 0 (createTimestampBatches_spec moves bs).2.1]
    exact ⟨rfl, rfl⟩

lemma insertBatchesGo_first_fail (okGM okMv : Nat → Bool) (gameMoves : List GameMove) :
    ∀ (k : Nat) (batches : List (List Move)) (i : Nat),
      (∀ b ∈ batches, b ≠ []) →
      (∀ j, j < k → okGM (i + j) = true ∧ okMv (i + j) = true) →
      k < batches.length →
      ((batchGameMoves gameMoves (batches.getD k []) ≠ [] ∧ okGM (i + k) = false →
        insertBatchesGo okGM okMv gameMoves i batches =
          (((batches.take k).map (perBatchCalls gameMoves)).flatten, true)) ∧
       (okGM (i + k) = true ∧ okMv (i + k) = false →
        insertBatchesGo okGM okMv gameMoves i batches =
          (((batches.take k).map (perBatchCalls gameMoves)).flatten ++
            (if batchGameMoves gameMoves (batches.getD k []) = [] then []
             else [InsCall.gameMovesIns (batchGameMoves gameMoves (batches.getD k []))]),
           true))) := by
  intro k
  induction k with
  | zero =>
    intro batches i hne _ hk
    rcases batches with _ | ⟨b, rest⟩
    · simp at hk
    · have hb : b ≠ [] := hne b (by simp)
      have hmv : b.map stripRaw ≠ [] := by
        intro hcon
        exact hb (List.map_eq_nil_iff.mp hcon)
      constructor
      · intro ⟨hgne, hfail⟩
        rw [Nat.add_zero] at hfail
        have hgne2 : batchGameMoves gameMoves b ≠ [] := by simpa using hgne
        unfold insertBatchesGo
        rw [if_pos ⟨hgne2, hfail⟩]
        simp
      · intro ⟨hok, hfail⟩
        rw [Nat.add_zero] at hok hfail
        unfold insertBatchesGo
        rw [if_neg (by simp [hok]), if_pos ⟨hmv, hfail⟩]
        simp
  | succ k ih =>
    intro batches i hne hprev hk
    rcases batches with _ | ⟨b, rest⟩
    · simp at hk
    · have hb : b ≠ [] := hne b (by simp)
      have hmv : b.map stripRaw ≠ [] := by
        intro hcon
        exact hb (List.map_eq_nil_iff.mp hcon)
      have h0 := hprev 0 (Nat.succ_pos k)
      rw [Nat.add_zero] at h0
      have hprev2 : ∀ j, j < k → okGM (i + 1 + j) = true ∧ okMv (i + 1 + j) = true := by
        intro j hj
        have := hprev (j + 1) (by omega)
        rwa [show i + (j + 1) = i + 1 + j by omega] at this
      have hrest : ∀ x ∈ rest, x ≠ [] := fun x hx => hne x (List.mem_cons_of_mem b hx)
      have hklen : k < rest.length := by
        simp at hk
        omega
      have ihx := ih rest (i + 1) hrest hprev2 hklen
      have hstep : ∀ res : List InsCall × Bool,
          insertBatchesGo okGM okMv gameMoves (i + 1) rest = res →
          insertBatchesGo okGM okMv gameMoves i (b :: rest) =
            (perBatchCalls gameMoves b ++ res.1, res.2) := by
        intro res hres
        unfold insertBatchesGo
        rw [if_neg (by simp [h0.1]), if_neg (by simp [h0.2]), hres]
        simp only [perBatchCalls, if_neg hmv]
      have hidx : (b :: rest).getD (k + 1) [] = rest.getD k [] := by simp
      have hadd : i + (k + 1) = i + 1 + k := by omega
      constructor
      · intro ⟨hgne, hfail⟩
        rw [hidx] at hgne
        rw [hadd] at hfail
        rw [hstep _ (ihx.1 ⟨hgne, hfail⟩)]
        simp only [List.take_succ_cons, List.map_cons, List.flatten_cons]
      · intro ⟨hok, hfail⟩
        rw [hadd] at hok hfail
        rw [hstep _ (ihx.2 ⟨hok, hfail⟩)]
        simp only [List.take_succ_cons, List.map_cons, List.flatten_cons,
          List.getD_cons_succ, List.append_assoc]

/-- **C6**: when the first insert failure happens at batch `k` — either the
game-move insert of a batch that has game moves, or the move insert — the run
fails, the batches before `k` remain delivered exactly as in a successful
run, and no call of any batch after `k` (nor the move call of `k` itself) is
issued; there is no rollback of the already-delivered prefix. -/
theorem claim_C6_delivery_abort (okGM okMv : Nat → Bool) (moves : List Move)
    (gameMoves : List GameMove) (bs : Nat) (k : Nat)
    (hk : k < (createTimestampBatches moves bs).length)
    (hprev : ∀ j, j < k → okGM j = true ∧ okMv j = true) :
    (batchGameMoves gameMoves ((createTimestampBatches moves bs).getD k []) ≠ [] ∧
        okGM k = false →
      insertAllData okGM okMv moves gameMoves bs =
        ((((createTimestampBatches moves bs).take k).map
            (perBatchCalls gameMoves)).flatten, true)) ∧
    (okGM k = true ∧ okMv k = false →
      insertAllData okGM okMv moves gameMoves bs =
        ((((createTimestampBatches moves bs).take k).map
            (perBatchCalls gameMoves)).flatten ++
          (if batchGameMoves gameMoves
              ((createTimestampBatches moves bs).getD k []) = [] then []
           else [InsCall.gameMovesIns (batchGameMoves gameMoves
              ((createTimestampBatches moves bs).getD k []))]), true)) := by
  have hne := (createTimestampBatches_spec moves bs).2.1
  have hearly : ¬ (moves = [] ∧ gameMoves = []) := by
    intro hcon
    rw [hcon.1] at hk
    simp [createTimestampBatches] at hk
  have hmain := insertBatchesGo_first_fail okGM okMv gameMoves k
    (createTimestampBatches moves bs) 0 hne
    (by intro j hj; simpa using hprev j hj) hk
  unfold insertAllData
  rw [if_neg hearly]
  simpa only [Nat.zero_add] using hmain

/-- Oracle that always reports a successful insert. -/
def oracleTrue : Nat → Bool := fun _ => true

/-- Oracle that fails from the second batch (index 1) on. -/
def oracleFailAt1 : Nat → Bool := fun i => i == 0

theorem claim_C6_delivery_abort_witness :
    (1 < (createTimestampBatches [sampleMove1, sampleMove2] 1).length) ∧
    (∀ j, j < 1 → oracleFailAt1 j = true ∧ oracleTrue j = true) ∧
    (∀ j, j < 1 → oracleTrue j = true ∧ oracleFailAt1 j = true) ∧
    (batchGameMoves [sampleGameMove1, sampleGameMove2]
        ((createTimestampBatches [sampleMove1, sampleMove2] 1).getD 1 []) ≠ [] ∧
      oracleFailAt1 1 = false) ∧
    (oracleTrue 1 = true ∧ oracleFailAt1 1 = false) ∧
    insertAllData oracleFailAt1 oracleTrue [sampleMove1, sampleMove2]
        [sampleGameMove1, sampleGameMove2] 1 =
      ((((createTimestampBatches [sampleMove1, sampleMove2] 1).take 1).map
          (perBatchCalls [sampleGameMove1, sampleGameMove2])).flatten, true) ∧
    insertAllData oracleTrue oracleFailAt1 [sampleMove1, sampleMove2]
        [sampleGameMove1, sampleGameMove2] 1 =
      ((((createTimestampBatches [sampleMove1, sampleMove2] 1).take 1).map
          (perBatchCalls [sampleGameMove1, sampleGameMove2])).flatten ++
        (if batchGameMoves [sampleGameMove1, sampleGameMove2]
            ((createTimestampBatches [sampleMove1, sampleMove2] 1).getD 1 []) = []
         then []
         else [InsCall.gameMovesIns (batchGameMoves [sampleGameMove1, sampleGameMove2]
            ((createTimestampBatches [sampleMove1, sampleMove2] 1).getD 1 []))]),
       true) :=
  ⟨by decide, by decide, by decide, by decide, by decide,
   (claim_C6_delivery_abort oracleFailAt1 oracleTrue [sampleMove1, sampleMove2]
      [sampleGameMove1, sampleGameMove2] 1 1 (by decide) (by decide)).1 (by decide),
   (claim_C6_delivery_abort oracleTrue oracleFailAt1 [sampleMove1, sampleMove2]
      [sampleGameMove1, sampleGameMove2] 1 1 (by decide) (by decide)).2 (by decide)⟩

/-- **C5**: `getLatestTimestamp` never surfaces an error: any failure while
submitting/polling/fetching, an empty result set, a missing `latest_time`
column, and an unparsable textual timestamp all yield `none`; and the
Checkpoint state treats `none` as resume-from-beginning — the subgraph query
then carries no lower timestamp bound, accepting every record. -/
theorem claim_C5_checkpoint_soft_failure :
    getLatestTimestamp QueryOutcome.failure = none ∧
    getLatestTimestamp (QueryOutcome.success []) = none ∧
    (∀ (rows : List ResultRow) (row : ResultRow), row.latest_time = none →
      getLatestTimestamp (QueryOutcome.success (row :: rows)) = none) ∧
    (∀ (s : String) (rows : List ResultRow),
      strptimeYmdHMS (stripMsUtc s) = none →
      getLatestTimestamp (QueryOutcome.success
        ({ latest_time := some (LatestValue.text s) } :: rows)) = none) ∧
    (∀ ts : Int, moveFilter none ts = true) := by
  refine ⟨rfl, rfl, ?_, ?_, fun ts => rfl⟩
  · intro rows row h
    show (match row.latest_time with
      | none => none
      | some v => parseLatestTime v) = none
    rw [h]
  · intro s rows h
    show parseLatestTime (LatestValue.text s) = none
    simp only [parseLatestTime]
    rw [h]

theorem claim_C5_checkpoint_soft_failure_witness :
    getLatestTimestamp QueryOutcome.failure = none ∧
    getLatestTimestamp (QueryOutcome.success []) = none ∧
    (({ latest_time := none } : ResultRow).latest_time = none ∧
      getLatestTimestamp (QueryOutcome.success [{ latest_time := none }]) = none) ∧
    (strptimeYmdHMS (stripMsUtc "not a timestamp") = none ∧
      getLatestTimestamp (QueryOutcome.success
        [{ latest_time := some (LatestValue.text "not a timestamp") }]) = none) ∧
    moveFilter none 42 = true :=
  ⟨claim_C5_checkpoint_soft_failure.1,
   claim_C5_checkpoint_soft_failure.2.1,
   ⟨rfl, claim_C5_checkpoint_soft_failure.2.2.1 [] { latest_time := none } rfl⟩,
   ⟨by decide, claim_C5_checkpoint_soft_failure.2.2.2.1 "not a timestamp" [] (by decide)⟩,
   claim_C5_checkpoint_soft_failure.2.2.2.2 42⟩

/-- The cleaned characters of the warehouse timestamp: what is left of
`YYYY-MM-DD HH:MM:SS.fff UTC` once the regex has removed the fraction and
zone marker. -/
def coreChars (c : Civil) : List Char :=
  pad4 c.year ++ ('-' :: (pad2 c.month ++ ('-' :: (pad2 c.day ++
    (' ' :: (pad2 c.hour ++ (':' :: (pad2 c.minute ++ (':' :: pad2 c.second)))))))))

/-- A textual warehouse timestamp in the fixed Dune format
`YYYY-MM-DD HH:MM:SS.fff UTC` (update.py:128). -/
def renderDuneTimestamp (c : Civil) (frac : Nat) : String :=
  ⟨coreChars c ++ ('.' :: (pad3 frac ++ (' ' :: 'U' :: 'T' :: ['C'])))⟩

/-- A civil datetime all of whose fields are in range. -/
def validCivil (c : Civil) : Prop :=
  1 ≤ c.year ∧ c.year ≤ 9999 ∧ 1 ≤ c.month ∧ c.month ≤ 12 ∧ 1 ≤ c.day ∧
    c.day ≤ daysInMonth c.year c.month ∧ c.hour ≤ 23 ∧ c.minute ≤ 59 ∧
    c.second ≤ 59

instance (c : Civil) : Decidable (validCivil c) := by
  unfold validCivil; infer_instance

lemma digitChar_toNat {k : Nat} (h : k < 10) : (Nat.digitChar k).toNat = 48 + k := by
  interval_cases k <;> rfl

lemma isDig_digitChar {k : Nat} (h : k < 10) : isDig (Nat.digitChar k) := by
  unfold isDig
  rw [digitChar_toNat h]
  omega

lemma dv_digitChar {k : Nat} (h : k < 10) : dv (Nat.digitChar k) = k := by
  unfold dv
  rw [digitChar_toNat h]
  omega

lemma digitChar_props {k : Nat} (h : k < 10) :
    Nat.digitChar k ≠ '-' ∧ Nat.digitChar k ≠ ':' ∧
      isPyWs (Nat.digitChar k) = false ∧ (Nat.digitChar k).isDigit = true := by
  interval_cases k <;> exact ⟨by decide, by decide, by decide, by decide⟩

lemma pLit_cons_self (c : Char) (r : List Char) : pLit c (c :: r) = [r] := by
  simp [pLit]

lemma pLit_cons_ne {a c : Char} (h : a ≠ c) (r : List Char) :
    pLit c (a :: r) = [] := by
  simp [pLit, h]

lemma pWs_not {a : Char} (h : isPyWs a = false) (r : List Char) :
    pWs (a :: r) = [] := by
  simp [pWs, h]

lemma pWs_single_space {x : Char} (hx : isPyWs x = false) (r : List Char) :
    pWs (' ' :: x :: r) = [x :: r] := by
  have hsp : isPyWs ' ' = true := rfl
  simp [pWs, hsp, List.dropWhile_cons, hx]

lemma pY_pad {y : Nat} (hy : y ≤ 9999) (r : List Char) :
    pY (pad4 y ++ r) = [(y, r)] := by
  have h1 : y / 1000 < 10 := by omega
  have h2 : y / 100 % 10 < 10 := Nat.mod_lt _ (by norm_num)
  have h3 : y / 10 % 10 < 10 := Nat.mod_lt _ (by norm_num)
  have h4 : y % 10 < 10 := Nat.mod_lt _ (by norm_num)
  show pY (Nat.digitChar (y / 1000) :: Nat.digitChar (y / 100 % 10) ::
    Nat.digitChar (y / 10 % 10) :: Nat.digitChar (y % 10) :: r) = [(y, r)]
  simp only [pY]
  rw [if_pos ⟨isDig_digitChar h1, isDig_digitChar h2, isDig_digitChar h3,
    isDig_digitChar h4⟩]
  rw [dv_digitChar h1, dv_digitChar h2, dv_digitChar h3, dv_digitChar h4]
  have : 1000 * (y / 1000) + 100 * (y / 100 % 10) + 10 * (y / 10 % 10) + y % 10 = y := by
    omega
  rw [this]

lemma pm_bind {m : Nat} (h1 : 1 ≤ m) (h2 : m ≤ 12) (r : List Char)
    (k : Nat × List Char → List Civil)
    (hdead : ∀ v, v ≤ 9 → k (v, Nat.digitChar (m % 10) :: r) = []) :
    (pm (pad2 m ++ r)).flatMap k = k (m, r) := by
  have hd1 : m / 10 < 10 := by omega
  have hd2 : m % 10 < 10 := by omega
  show (pm (Nat.digitChar (m / 10) :: Nat.digitChar (m % 10) :: r)).flatMap k = k (m, r)
  simp only [pm]
  rcases Nat.lt_or_ge m 10 with hm | hm
  · rw [if_neg (by intro hcon; rw [dv_digitChar hd1] at hcon; omega),
        if_pos ⟨isDig_digitChar hd1, isDig_digitChar hd2,
          by rw [dv_digitChar hd1]; omega, by rw [dv_digitChar hd2]; omega⟩,
        if_neg (by intro hcon; rw [dv_digitChar hd1] at hcon; omega)]
    rw [dv_digitChar hd2]
    have e2 : m % 10 = m := by omega
    rw [e2]
    simp
  · rw [if_pos ⟨isDig_digitChar hd1, isDig_digitChar hd2,
          by rw [dv_digitChar hd1]; omega, by rw [dv_digitChar hd2]; omega⟩,
        if_neg (by intro hcon; rw [dv_digitChar hd1] at hcon; omega),
        if_pos ⟨isDig_digitChar hd1, by rw [dv_digitChar hd1]; omega⟩]
    rw [dv_digitChar hd1, dv_digitChar hd2]
    have e : 10 + m % 10 = m := by omega
    rw [e]
    simp only [List.nil_append, List.append_nil, List.singleton_append,
      List.flatMap_cons, List.flatMap_nil]
    rw [hdead (m / 10) (by omega)]
    simp

lemma pd_bind {d : Nat} (h1 : 1 ≤ d) (h2 : d ≤ 31) (r : List Char)
    (k : Nat × List Char → List Civil)
    (hdead : ∀ v, v ≤ 9 → k (v, Nat.digitChar (d % 10) :: r) = []) :
    (pd (pad2 d ++ r)).flatMap k = k (d, r) := by
  have hd1 : d / 10 < 10 := by omega
  have hd2 : d % 10 < 10 := by omega
  show (pd (Nat.digitChar (d / 10) :: Nat.digitChar (d % 10) :: r)).flatMap k = k (d, r)
  simp only [pd]
  rcases Nat.lt_or_ge d 10 with hd | hd
  · rw [if_neg (by intro hcon; rw [dv_digitChar hd1] at hcon; omega),
        if_neg (by intro hcon; rw [dv_digitChar hd1] at hcon; omega),
        if_pos ⟨isDig_digitChar hd1, isDig_digitChar hd2,
          by rw [dv_digitChar hd1]; omega, by rw [dv_digitChar hd2]; omega⟩,
        if_neg (by intro hcon; rw [dv_digitChar hd1] at hcon; omega)]
    rw [dv_digitChar hd2]
    have e2 : d % 10 = d := by omega
    rw [e2]
    simp
  · rcases Nat.lt_or_ge d 30 with hd3 | hd3
    · rw [if_neg (by intro hcon; rw [dv_digitChar hd1] at hcon; omega),
          if_pos ⟨isDig_digitChar hd1, isDig_digitChar hd2,
            by rw [dv_digitChar hd1]; omega⟩,
          if_neg (by intro hcon; rw [dv_digitChar hd1] at hcon; omega),
          if_pos ⟨isDig_digitChar hd1, by rw [dv_digitChar hd1]; omega⟩]
      rw [dv_digitChar hd1, dv_digitChar hd2]
      have e : 10 * (d / 10) + d % 10 = d := by omega
      rw [e]
      simp only [List.nil_append, List.append_nil, List.singleton_append,
        List.flatMap_cons, List.flatMap_nil]
      rw [hdead (d / 10) (by omega)]
      simp
    · rw [if_pos ⟨isDig_digitChar hd1, isDig_digitChar hd2,
            by rw [dv_digitChar hd1]; omega, by rw [dv_digitChar hd2]; omega⟩,
          if_neg (by intro hcon; rw [dv_digitChar hd1] at hcon; omega),
          if_neg (by intro hcon; rw [dv_digitChar hd1] at hcon; omega),
          if_pos ⟨isDig_digitChar hd1, by rw [dv_digitChar hd1]; omega⟩]
      rw [dv_digitChar hd1, dv_digitChar hd2]
      have e : 30 + d % 10 = d := by omega
      rw [e]
      simp only [List.nil_append, List.append_nil, List.singleton_append,
        List.flatMap_cons, List.flatMap_nil]
      rw [hdead (d / 10) (by omega)]
      simp

lemma ph_bind {h : Nat} (h2 : h ≤ 23) (r : List Char)
    (k : Nat × List Char → List Civil)
    (hdead : ∀ v, v ≤ 9 → k (v, Nat.digitChar (h % 10) :: r) = []) :
    (ph (pad2 h ++ r)).flatMap k = k (h, r) := by
  have hd1 : h / 10 < 10 := by omega
  have hd2 : h % 10 < 10 := by omega
  show (ph (Nat.digitChar (h / 10) :: Nat.digitChar (h % 10) :: r)).flatMap k = k (h, r)
  simp only [ph]
  rcases Nat.lt_or_ge h 20 with hh | hh
  · rw [if_neg (by intro hcon; rw [dv_digitChar hd1] at hcon; omega),
        if_pos ⟨isDig_digitChar hd1, isDig_digitChar hd2,
          by rw [dv_digitChar hd1]; omega⟩,
        if_pos (isDig_digitChar hd1)]
    rw [dv_digitChar hd1, dv_digitChar hd2]
    have e : 10 * (h / 10) + h % 10 = h := by omega
    rw [e]
    simp only [List.nil_append, List.append_nil, List.singleton_append,
      List.flatMap_cons, List.flatMap_nil]
    rw [hdead (h / 10) (by omega)]
    simp
  · rw [if_pos ⟨isDig_digitChar hd1, isDig_digitChar hd2,
          by rw [dv_digitChar hd1]; omega, by rw [dv_digitChar hd2]; omega⟩,
        if_neg (by intro hcon; rw [dv_digitChar hd1] at hcon; omega),
        if_pos (isDig_digitChar hd1)]
    rw [dv_digitChar hd1, dv_digitChar hd2]
    have e : 20 + h % 10 = h := by omega
    rw [e]
    simp only [List.nil_append, List.append_nil, List.singleton_append,
      List.flatMap_cons, List.flatMap_nil]
    rw [hdead (h / 10) (by omega)]
    simp

lemma pmin_bind {mi : Nat} (h2 : mi ≤ 59) (r : List Char)
    (k : Nat × List Char → List Civil)
    (hdead : ∀ v, v ≤ 9 → k (v, Nat.digitChar (mi % 10) :: r) = []) :
    (pmin (pad2 mi ++ r)).flatMap k = k (mi, r) := by
  have hd1 : mi / 10 < 10 := by omega
  have hd2 : mi % 10 < 10 := by omega
  show (pmin (Nat.digitChar (mi / 10) :: Nat.digitChar (mi % 10) :: r)).flatMap k =
    k (mi, r)
  simp only [pmin]
  rw [if_pos ⟨isDig_digitChar hd1, isDig_digitChar hd2,
        by rw [dv_digitChar hd1]; omega⟩,
      if_pos (isDig_digitChar hd1)]
  rw [dv_digitChar hd1, dv_digitChar hd2]
  have e : 10 * (mi / 10) + mi % 10 = mi := by omega
  rw [e]
  simp only [List.nil_append, List.append_nil, List.singleton_append,
    List.flatMap_cons, List.flatMap_nil]
  rw [hdead (mi / 10) (by omega)]
  simp

lemma ps_bind {s : Nat} (h2 : s ≤ 59) (r : List Char)
    (k : Nat × List Char → List Civil)
    (hdead : ∀ v, v ≤ 9 → k (v, Nat.digitChar (s % 10) :: r) = []) :
    (ps (pad2 s ++ r)).flatMap k = k (s, r) := by
  have hd1 : s / 10 < 10 := by omega
  have hd2 : s % 10 < 10 := by omega
  show (ps (Nat.digitChar (s / 10) :: Nat.digitChar (s % 10) :: r)).flatMap k = k (s, r)
  simp only [ps]
  rw [if_neg (by intro hcon; rw [dv_digitChar hd1] at hcon; omega),
      if_pos ⟨isDig_digitChar hd1, isDig_digitChar hd2,
        by rw [dv_digitChar hd1]; omega⟩,
      if_pos (isDig_digitChar hd1)]
  rw [dv_digitChar hd1, dv_digitChar hd2]
  have e : 10 * (s / 10) + s % 10 = s := by omega
  rw [e]
  simp only [List.nil_append, List.append_nil, List.singleton_append,
    List.flatMap_cons, List.flatMap_nil]
  rw [hdead (s / 10) (by omega)]
  simp

lemma pcFin_dead (y m d h mi v : Nat) (x : Char) (r : List Char) :
    pcFin y m d h mi (v, x :: r) = [] := by
  simp only [pcFin]
  rw [if_neg]
  intro hcon
  exact absurd hcon.1 (List.cons_ne_nil x r)

lemma pcMin2_dead {j : Nat} (hj : j < 10) (y m d h v : Nat) (r : List Char) :
    pcMin2 y m d h (v, Nat.digitChar j :: r) = [] := by
  simp only [pcMin2]
  rw [pLit_cons_ne (digitChar_props hj).2.1]
  rfl

lemma pcHour2_dead {j : Nat} (hj : j < 10) (y m d v : Nat) (r : List Char) :
    pcHour2 y m d (v, Nat.digitChar j :: r) = [] := by
  simp only [pcHour2]
  rw [pLit_cons_ne (digitChar_props hj).2.1]
  rfl

lemma pcDay2_dead {j : Nat} (hj : j < 10) (y m v : Nat) (r : List Char) :
    pcDay2 y m (v, Nat.digitChar j :: r) = [] := by
  simp only [pcDay2]
  rw [pWs_not (digitChar_props hj).2.2.1]
  rfl

lemma pcMon2_dead {j : Nat} (hj : j < 10) (y v : Nat) (r : List Char) :
    pcMon2 y (v, Nat.digitChar j :: r) = [] := by
  simp only [pcMon2]
  rw [pLit_cons_ne (digitChar_props hj).1]
  rfl

lemma pWs_space_pad2 {n : Nat} (hn : n < 100) (X : List Char) :
    pWs (' ' :: (pad2 n ++ X)) = [pad2 n ++ X] := by
  have h1 : n / 10 < 10 := by omega
  show pWs (' ' :: Nat.digitChar (n / 10) :: (Nat.digitChar (n % 10) :: X)) = _
  rw [pWs_single_space ((digitChar_props h1).2.2.1)]
  rfl

lemma daysInMonth_le (y m : Nat) : daysInMonth y m ≤ 31 := by
  unfold daysInMonth
  split_ifs <;> omega

lemma pcSec_eval {s : Nat} (hs : s ≤ 59) (y m d h mi : Nat) :
    pcSec y m d h mi (pad2 s) = pcFin y m d h mi (s, []) := by
  have hx := ps_bind hs [] (pcFin y m d h mi)
    (fun v _ => pcFin_dead y m d h mi v (Nat.digitChar (s % 10)) [])
  rw [List.append_nil] at hx
  exact hx

lemma pcMin_eval {mi s : Nat} (hmi : mi ≤ 59) (hs : s ≤ 59) (y m d h : Nat) :
    pcMin y m d h (pad2 mi ++ (':' :: pad2 s)) = pcFin y m d h mi (s, []) := by
  unfold pcMin
  rw [pmin_bind hmi (':' :: pad2 s) (pcMin2 y m d h)
    (fun v _ => pcMin2_dead (by omega) y m d h v _)]
  simp only [pcMin2]
  rw [pLit_cons_self]
  simp only [List.flatMap_cons, List.flatMap_nil, List.append_nil]
  exact pcSec_eval hs y m d h mi

lemma pcHour_eval {h mi s : Nat} (hh : h ≤ 23) (hmi : mi ≤ 59) (hs : s ≤ 59)
    (y m d : Nat) :
    pcHour y m d (pad2 h ++ (':' :: (pad2 mi ++ (':' :: pad2 s)))) =
      pcFin y m d h mi (s, []) := by
  unfold pcHour
  rw [ph_bind hh (':' :: (pad2 mi ++ (':' :: pad2 s))) (pcHour2 y m d)
    (fun v _ => pcHour2_dead (by omega) y m d v _)]
  simp only [pcHour2]
  rw [pLit_cons_self]
  simp only [List.flatMap_cons, List.flatMap_nil, List.append_nil]
  exact pcMin_eval hmi hs y m d h

lemma pcDay_eval {d h mi s : Nat} (hd1 : 1 ≤ d) (hd31 : d ≤ 31) (hh : h ≤ 23)
    (hmi : mi ≤ 59) (hs : s ≤ 59) (y m : Nat) :
    pcDay y m (pad2 d ++ (' ' :: (pad2 h ++ (':' :: (pad2 mi ++ (':' :: pad2 s)))))) =
      pcFin y m d h mi (s, []) := by
  unfold pcDay
  rw [pd_bind hd1 hd31 (' ' :: (pad2 h ++ (':' :: (pad2 mi ++ (':' :: pad2 s)))))
    (pcDay2 y m) (fun v _ => pcDay2_dead (by omega) y m v _)]
  simp only [pcDay2]
  rw [pWs_space_pad2 (show h < 100 by omega)]
  simp only [List.flatMap_cons, List.flatMap_nil, List.append_nil]
  exact pcHour_eval hh hmi hs y m d

lemma pcMon_eval {m d h mi s : Nat} (hm1 : 1 ≤ m) (hm2 : m ≤ 12) (hd1 : 1 ≤ d)
    (hd31 : d ≤ 31) (hh : h ≤ 23) (hmi : mi ≤ 59) (hs : s ≤ 59) (y : Nat) :
    pcMon y (pad2 m ++ ('-' :: (pad2 d ++
        (' ' :: (pad2 h ++ (':' :: (pad2 mi ++ (':' :: pad2 s)))))))) =
      pcFin y m d h mi (s, []) := by
  unfold pcMon
  rw [pm_bind hm1 hm2 ('-' :: (pad2 d ++
      (' ' :: (pad2 h ++ (':' :: (pad2 mi ++ (':' :: pad2 s)))))))
    (pcMon2 y) (fun v _ => pcMon2_dead (by omega) y v _)]
  simp only [pcMon2]
  rw [pLit_cons_self]
  simp only [List.flatMap_cons, List.flatMap_nil, List.append_nil]
  exact pcDay_eval hd1 hd31 hh hmi hs y m

/-- strptime round-trip on the cleaned, zero-padded format: rendering a valid
civil datetime and parsing it back yields the same fields. -/
theorem strptime_core (c : Civil) (hv : validCivil c) :
    strptimeYmdHMS ⟨coreChars c⟩ = some c := by
  obtain ⟨y, m, d, h, mi, s⟩ := c
  obtain ⟨hy1, hy2, hm1, hm2, hdd1, hdd2, hh, hmi, hs⟩ := hv
  have hd31 : d ≤ 31 := le_trans hdd2 (daysInMonth_le y m)
  show (parseCandidates (coreChars ⟨y, m, d, h, mi, s⟩)).head? = _
  have hc : coreChars ⟨y, m, d, h, mi, s⟩ =
      pad4 y ++ ('-' :: (pad2 m ++ ('-' :: (pad2 d ++
        (' ' :: (pad2 h ++ (':' :: (pad2 mi ++ (':' :: pad2 s))))))))) := rfl
  rw [hc]
  unfold parseCandidates
  rw [pY_pad hy2]
  simp only [List.flatMap_cons, List.flatMap_nil, List.append_nil]
  simp only [pcYear2]
  rw [pLit_cons_self]
  simp only [List.flatMap_cons, List.flatMap_nil, List.append_nil]
  rw [pcMon_eval hm1 hm2 hdd1 hd31 hh hmi hs y]
  have hvd : validDatetime y m d h mi s :=
    ⟨hy1, hy2, hm1, hm2, hdd1, hdd2, hh, hmi, hs⟩
  simp only [pcFin]
  rw [if_pos ⟨trivial, hvd⟩]
  rfl

lemma stripMsUtcRev_render (c : Civil) {frac : Nat} (hf : frac < 1000) :
    stripMsUtcRev ((renderDuneTimestamp c frac).data.reverse) =
      some ((coreChars c).reverse) := by
  have h1 : frac / 100 < 10 := by omega
  have h2 : frac / 10 % 10 < 10 := by omega
  have h3 : frac % 10 < 10 := by omega
  show stripMsUtcRev
    ((coreChars c ++ ('.' :: (pad3 frac ++ (' ' :: 'U' :: 'T' :: ['C'])))).reverse) = _
  have hrev : (coreChars c ++
      ('.' :: (pad3 frac ++ (' ' :: 'U' :: 'T' :: ['C'])))).reverse =
      'C' :: 'T' :: 'U' :: ' ' :: Nat.digitChar (frac % 10) ::
        Nat.digitChar (frac / 10 % 10) :: Nat.digitChar (frac / 100) ::
        '.' :: (coreChars c).reverse := by
    simp [pad3, List.reverse_append]
  rw [hrev]
  simp only [stripMsUtcRev]
  rw [if_pos ⟨trivial, trivial, trivial⟩]
  have hws : isPyWs ' ' = true := rfl
  have hd3 : isPyWs (Nat.digitChar (frac % 10)) = false := (digitChar_props h3).2.2.1
  simp [List.takeWhile_cons, List.dropWhile_cons, hws, hd3,
    isDig_digitChar h1, isDig_digitChar h2, isDig_digitChar h3]

/-- The regex substitution removes exactly the `.fff UTC` suffix from a
rendered warehouse timestamp, leaving the cleaned core. -/
lemma stripMsUtc_render (c : Civil) {frac : Nat} (hf : frac < 1000) :
    stripMsUtc (renderDuneTimestamp c frac) = ⟨coreChars c⟩ := by
  unfold stripMsUtc
  rw [stripMsUtcRev_render c hf]
  show (⟨(coreChars c).reverse.reverse⟩ : String) = ⟨coreChars c⟩
  rw [List.reverse_reverse]

/-- **C4 (counterexample)**: the claim admits the fraction-less textual form
`YYYY-MM-DD HH:MM:SS UTC`, but on `"2022-10-20 10:57:01 UTC"` the regex
(which demands `\.\d{3}` before the zone) strips nothing, strptime chokes on
the trailing zone marker, and `getLatestTimestamp` yields `none` — while the
claim requires the same answer as the equivalent numeric epoch,
`some 1666263421`. -/
theorem claim_C4_counterexample :
    getLatestTimestamp (QueryOutcome.success
      [{ latest_time := some (LatestValue.text "2022-10-20 10:57:01 UTC") }]) =
      none ∧
    getLatestTimestamp (QueryOutcome.success
      [{ latest_time := some (LatestValue.num 1666263421) }]) = some 1666263421 ∧
    timestampOfCivil ⟨2022, 10, 20, 10, 57, 1⟩ = 1666263421 ∧
    (none : Option Int) ≠ some 1666263421 :=
  ⟨by decide, by decide, by decide, by decide⟩

/-- **C4 (amended)**: the millisecond fraction is mandatory, not optional:
for every valid civil datetime and every three-digit fraction, the textual
form `YYYY-MM-DD HH:MM:SS.fff UTC` has the fraction and zone marker stripped,
is interpreted as UTC, and yields the same epoch integer as the equivalent
directly-supplied numeric value. -/
theorem claim_C4_timestamp_parsing (c : Civil) (hv : validCivil c)
    (frac : Nat) (hf : frac < 1000) :
    getLatestTimestamp (QueryOutcome.success
      [{ latest_time := some (LatestValue.text (renderDuneTimestamp c frac)) }]) =
      some (timestampOfCivil c) ∧
    getLatestTimestamp (QueryOutcome.success
      [{ latest_time := some (LatestValue.num (timestampOfCivil c)) }]) =
      some (timestampOfCivil c) := by
  constructor
  · show parseLatestTime (LatestValue.text (renderDuneTimestamp c frac)) = _
    simp only [parseLatestTime]
    rw [stripMsUtc_render c hf, strptime_core c hv]
  · rfl

theorem claim_C4_timestamp_parsing_witness :
    validCivil ⟨2022, 10, 20, 10, 57, 1⟩ ∧ (0 : Nat) < 1000 ∧
    (getLatestTimestamp (QueryOutcome.success
        [{ latest_time := some (LatestValue.text
            (renderDuneTimestamp ⟨2022, 10, 20, 10, 57, 1⟩ 0)) }]) =
        some (timestampOfCivil ⟨2022, 10, 20, 10, 57, 1⟩) ∧
      getLatestTimestamp (QueryOutcome.success
        [{ latest_time := some (LatestValue.num
            (timestampOfCivil ⟨2022, 10, 20, 10, 57, 1⟩)) }]) =
        some (timestampOfCivil ⟨2022, 10, 20, 10, 57, 1⟩)) :=
  ⟨by decide, by decide,
   claim_C4_timestamp_parsing ⟨2022, 10, 20, 10, 57, 1⟩ (by decide) 0 (by decide)⟩
